import Mathlib

/-!
Shallow embedding of `nixos_secrets.py` (repository GTrunSec/nixos-secrets).

Pure data transformations of the script are translated as Lean functions;
the external gpg engine (encrypt, decrypt, packet listing, keyring lookup,
key generation) is an explicitly passed capability, and the mutable per-secret
state (`_encrypted` cache, the target file's bytes, the temporary file) is an
explicit state record threaded through the operations.  Python exceptions are
`Option`/`Except`/error components; Python bytes are `List Nat`.
-/

/-- A configuration value that is either a single string or a list of strings
(`Union[str, Iterable[str]]` in the source). -/
inductive StrOrList where
  | str (s : String)
  | list (l : List String)
deriving DecidableEq

/-- `wrap_string_list`: a lone string becomes a one-element iterable, an
iterable is returned unchanged. -/
def wrap_string_list : StrOrList → List String
  | StrOrList.str s => [s]
  | StrOrList.list l => l

/-- One key of the local gpg keyring, modelling the external `gpg.list_keys`
capability: `ids` are the identifiers the key can be looked up by (short id,
long id, full fingerprint) and `fingerprint` is the master fingerprint the
listing reports for it. -/
structure PgpKey where
  ids : List String
  fingerprint : String
deriving DecidableEq

/-- `Secret._get_master_keys`: `gpg.list_keys(keys=keys)` returns every keyring
entry matched by at least one of the requested ids, and the function collects
the set of their `fingerprint` fields.  A requested id that matches no keyring
entry simply contributes nothing; there is no failure path in the source. -/
def get_master_keys (keyring : List PgpKey) (keys : List String) : Finset String :=
  ((keyring.filter (fun k => k.ids.any (fun i => decide (i ∈ keys)))).map
    PgpKey.fingerprint).toFinset

/-- Lookup `d[k]` in a Python dict modelled as an association list
(unique keys, insertion ordered). -/
def dictLookup (d : List (String × Finset String)) (k : String) :
    Option (Finset String) :=
  (d.find? (fun p => p.1 == k)).map Prod.snd

/-- Assignment `d[k] = v` on a Python dict: if the key is present its value is
replaced in place (keeping its position), otherwise the binding is appended. -/
def dictInsert : List (String × Finset String) → String → Finset String →
    List (String × Finset String)
  | [], k, v => [(k, v)]
  | c :: cs, k, v => if c.1 == k then (k, v) :: cs else c :: dictInsert cs k v

/-- Python `set.union(*sets)`: raises `TypeError` when called with no argument
at all (the unbound method needs at least one set), otherwise folds union from
the first argument. -/
def setUnionStar : List (Finset String) → Option (Finset String)
  | [] => none
  | v :: rest => some (rest.foldl (· ∪ ·) v)

/-- `KeyManager.__init__`: build `_aliases` by wrapping every configured value
into a set of the configured identifier strings, then assign
`_aliases['all'] = set.union(*_aliases.values())` — the union is taken over
the values present at that moment, including a configured `all` entry.
`none` models the `TypeError` raised by `set.union()` on an empty
configuration. -/
def KeyManager.make (config : List (String × StrOrList)) :
    Option (List (String × Finset String)) :=
  let aliases := config.map (fun p => (p.1, (wrap_string_list p.2).toFinset))
  match setUnionStar (aliases.map Prod.snd) with
  | none => none
  | some allSet => some (dictInsert aliases "all" allSet)

/-- The union of every entry of an alias table other than the one named
`all`; used to state the spec's `all`-invariant. -/
def unionOthers (t : List (String × Finset String)) : Finset String :=
  ((t.filter (fun p => p.1 != "all")).map Prod.snd).foldr (· ∪ ·) ∅

/-- The Alias Table construction as the spec's §4.1 words it: every configured
value is normalized to canonical master fingerprints by consulting the Key
Directory (`get_master_keys`) before the synthetic `all` entry is added.  This
is the spec-side definition for the refinement comparison of C4; the source's
`KeyManager.__init__` never consults the Key Directory. -/
def KeyManager.makeSpec (keyring : List PgpKey) (config : List (String × StrOrList)) :
    Option (List (String × Finset String)) :=
  let aliases := config.map (fun p => (p.1, get_master_keys keyring (wrap_string_list p.2)))
  match setUnionStar (aliases.map Prod.snd) with
  | none => none
  | some allSet => some (dictInsert aliases "all" allSet)

/-- Body-offset table of `Secret._detect_encryption` for old-format packets,
computed from the two low bits of the tag byte. -/
def bodyOffset (b0 : Nat) : Nat :=
  let lengthType := b0 &&& 0x3
  if lengthType == 0 then 2
  else if lengthType == 1 then 3
  else if lengthType == 2 then 5
  else 1

/-- Core of `Secret._detect_encryption` on the bytes read from the file:
`header = file.read(32)`, then the packet-header checks; a Python
`IndexError` on `header[i]` is modelled by `Option` and classified
not-encrypted, exactly as the source's `except IndexError` does. -/
def detectBytes (content : List Nat) : Bool :=
  let header := content.take 32
  match header[0]? with
  | none => false
  | some b0 =>
    if b0 &&& 0x80 == 0 then false
    else if b0 &&& 0x40 == 0 then
      if (b0 &&& 0x3C) >>> 2 != 1 then false
      else
        match header[bodyOffset b0]? with
        | none => false
        | some bv => bv == 3
    else b0 &&& 0x3F == 1

/-- `Secret._detect_encryption` including the `open` step: a path that cannot
be opened is `none` and its I/O error propagates (the `open` sits outside the
`try`/`except IndexError` block); readable content is classified totally by
`detectBytes`. -/
def detect_encryption (file : Option (List Nat)) : Except String Bool :=
  match file with
  | none => Except.error "IOError"
  | some content => Except.ok (detectBytes content)

/-- The `Secret.encrypted` property over an openable-or-not file: a populated
cache is returned without touching the file; an empty cache triggers
`_detect_encryption`, whose I/O error propagates. -/
def encrypted_access_io (file : Option (List Nat)) (cache : Option Bool) :
    Except String (Bool × Option Bool) :=
  match cache with
  | some b => Except.ok (b, some b)
  | none =>
    match detect_encryption file with
    | Except.error e => Except.error e
    | Except.ok b => Except.ok (b, some b)

/-- `SecretError(path, message)`: the exception's text is
`f"{path}: {message}"`. -/
structure SecretError where
  msg : String
deriving DecidableEq

/-- Constructor of `SecretError`. -/
def mkSecretError (path message : String) : SecretError :=
  ⟨path ++ ": " ++ message⟩

/-- The external crypto engine as a capability record: `encryptFile` takes the
plaintext bytes and the recipient set and yields ciphertext or a status text;
`decryptFile` is symmetric; `listPackets` yields the `ENC_TO` key ids of the
`--list-packets` status stream; `keyring` backs `gpg.list_keys`. -/
structure Engine where
  keyring : List PgpKey
  encryptFile : List Nat → Finset String → Except String (List Nat)
  decryptFile : List Nat → Except String (List Nat)
  listPackets : List Nat → List String

/-- State of one `Secret` together with its on-disk artefacts: `path` and
`keys` are the constructor arguments, `cache` is the `_encrypted` tri-state
(`none` = unknown), `fileContent` the bytes at the target path, `tempExists`
whether the operation's temporary file is on disk, and `encCount` an
instrumentation counter of completed encryption transitions (used only to
state "at most one encryption" properties). -/
structure SecretState where
  path : String
  keys : Finset String
  cache : Option Bool
  fileContent : List Nat
  tempExists : Bool
  encCount : Nat
deriving DecidableEq

/-- The `Secret.encrypted` property: return the cached value, or detect from
the file and populate the cache. -/
def Secret.encrypted_access (s : SecretState) : Bool × SecretState :=
  match s.cache with
  | some b => (b, s)
  | none =>
    let b := detectBytes s.fileContent
    (b, { s with cache := some b })

/-- `Secret.encrypt`: warn and return when already encrypted; otherwise create
a same-directory temporary file, run the engine, and on success atomically
replace the target and set `_encrypted = True`; on failure remove the
temporary file and raise `SecretError(path, result.status)`. -/
def Secret.encrypt (E : Engine) (s : SecretState) : SecretState × Option SecretError :=
  let res := Secret.encrypted_access s
  if res.1 then (res.2, none)
  else
    let s2 := { res.2 with tempExists := true }
    match E.encryptFile res.2.fileContent res.2.keys with
    | Except.ok cipher =>
        ({ s2 with fileContent := cipher, tempExists := false,
                   cache := some true, encCount := s2.encCount + 1 }, none)
    | Except.error status =>
        ({ s2 with tempExists := false }, some (mkSecretError res.2.path status))

/-- `Secret.decrypt`: same temp-file structure as `encrypt`, without any
`encrypted` check; success atomically replaces the target and sets
`_encrypted = False`; failure removes the temporary file and raises. -/
def Secret.decrypt (E : Engine) (s : SecretState) : SecretState × Option SecretError :=
  let s2 := { s with tempExists := true }
  match E.decryptFile s.fileContent with
  | Except.ok plain =>
      ({ s2 with fileContent := plain, tempExists := false, cache := some false }, none)
  | Except.error status =>
      ({ s2 with tempExists := false }, some (mkSecretError s.path status))

/-- Exception propagation of a two-step operation: the second step runs only
when the first one did not raise. -/
def andThen (r : SecretState × Option SecretError)
    (f : SecretState → SecretState × Option SecretError) :
    SecretState × Option SecretError :=
  match r with
  | (s2, some e) => (s2, some e)
  | (s2, none) => f s2

/-- The `current_keys` value computed by `Secret.update_keys`: the empty set
for a plaintext file, otherwise the `ENC_TO` ids of the packet listing
canonicalized through `_get_master_keys`. -/
def currentKeysOf (E : Engine) (s : SecretState) : Finset String :=
  if (Secret.encrypted_access s).1 then
    get_master_keys E.keyring (E.listPackets (Secret.encrypted_access s).2.fileContent)
  else ∅

/-- `Secret.update_keys` (reconcile): detect the current recipient set; when it
differs from `_keys`, decrypt first if currently encrypted, then encrypt;
otherwise log "Keys are up to date" and do nothing. -/
def Secret.update_keys (E : Engine) (s : SecretState) : SecretState × Option SecretError :=
  let s1 := (Secret.encrypted_access s).2
  let current := currentKeysOf E s
  if current ≠ s1.keys then
    if (Secret.encrypted_access s).1 then
      andThen (Secret.decrypt E s1) (Secret.encrypt E)
    else Secret.encrypt E s1
  else (s1, none)

/-- `KeyGenerator.__init__` configuration: `keyType` (default `RSA`),
`keyLength` (default 4096) and the mandatory `domain`. -/
structure KeyGenConfig where
  keyType : String
  keyLength : Nat
  domain : String
deriving DecidableEq

/-- The key-generation request `KeyGenerator.generate` assembles for
`gpg.gen_key`: the `%no-protection` directive plus the `gen_key_input`
parameters of the source. -/
structure KeyGenRequest where
  noProtection : Bool
  keyType : String
  keyLength : Nat
  nameReal : String
  nameEmail : String
  passphrase : String
  expireDate : Nat
deriving DecidableEq

/-- Python `str.lower()`, modelled characterwise (names are ASCII). -/
def pyLower (s : String) : String := ⟨s.data.map Char.toLower⟩

/-- The request built by `KeyGenerator.generate(name)`: `%no-protection`, the
configured algorithm and length, `name_real=name`,
`name_email=f"{name.lower()}@{domain}"`, an empty passphrase and no expiry. -/
def KeyGenerator.buildRequest (cfg : KeyGenConfig) (name : String) : KeyGenRequest :=
  { noProtection := true
    keyType := cfg.keyType
    keyLength := cfg.keyLength
    nameReal := name
    nameEmail := pyLower name ++ "@" ++ cfg.domain
    passphrase := ""
    expireDate := 0 }

/-- `KeyGenerator.generate`: ask the engine to generate a key from the built
request; a falsy result raises `SecretKeyError`, otherwise the fingerprint is
returned.  The export of the secret key to a file and its deletion from the
keyring are filesystem/keyring side effects outside this model (no claim
concerns them). -/
def KeyGenerator.generate (gen : KeyGenRequest → Option String) (cfg : KeyGenConfig)
    (name : String) : Except String String :=
  match gen (KeyGenerator.buildRequest cfg name) with
  | none => Except.error "Failed to generate key"
  | some fp => Except.ok fp

/-- A well-behaved concrete engine used as evaluation input: one keyring key
whose only id is its own fingerprint, an encryptor that always produces the
byte `0xC1`, a decryptor producing empty plaintext, and a packet listing that
names that key. -/
def okEngine : Engine :=
  { keyring := [{ ids := ["FPK"], fingerprint := "FPK" }]
    encryptFile := fun _ _ => Except.ok [0xC1]
    decryptFile := fun _ => Except.ok []
    listPackets := fun _ => ["FPK"] }

/-- A concrete engine whose encrypt and decrypt always fail with a fixed
status text. -/
def errEngine : Engine :=
  { keyring := []
    encryptFile := fun _ _ => Except.error "engine says no"
    decryptFile := fun _ => Except.error "engine says no"
    listPackets := fun _ => [] }

/-- A concrete plaintext secret with unknown cache state. -/
def sampleSecret : SecretState :=
  { path := "db.env", keys := {"FPK"}, cache := none,
    fileContent := [], tempExists := false, encCount := 0 }

-- ------------------------------------------------------------------
-- Theorems
-- ------------------------------------------------------------------

/-- Claim C5 counterexample: with a keyring holding one key reachable as `A`
(fingerprint `FPA`), canonicalizing `["A", "B"]` — where `B` matches no
keyring entry at all — returns the smaller set `{FPA}` instead of failing
with an `UnknownKeyError`: the unmatched id is silently dropped. -/
theorem C5_cex :
    get_master_keys [⟨["A"], "FPA"⟩] ["A", "B"] = {"FPA"} ∧
    (∀ k ∈ ([⟨["A"], "FPA"⟩] : List PgpKey), "B" ∉ k.ids) := by
  constructor
  · rfl
  · decide

/-- Claim C5 (amended): `_get_master_keys` never fails; an input id that
matches no keyring entry is silently dropped — the result is unchanged when
all unmatched ids are removed from the input. -/
theorem C5_silent_drop (keyring : List PgpKey) (keys : List String) :
    get_master_keys keyring keys =
      get_master_keys keyring
        (keys.filter (fun i => keyring.any (fun k => decide (i ∈ k.ids)))) := by
  unfold get_master_keys
  congr 2
  apply List.filter_congr
  intro k hk
  rw [Bool.eq_iff_iff]
  simp only [List.any_eq_true, decide_eq_true_eq, List.mem_filter]
  constructor
  · rintro ⟨i, hi, hmem⟩
    exact ⟨i, hi, hmem, ⟨k, hk, hi⟩⟩
  · rintro ⟨i, hi, hmem, -⟩
    exact ⟨i, hi, hmem⟩

/-- Claim C10: opening failure propagates as an error, never as a
not-encrypted classification; any readable content — including content whose
header parsing hits an index error, such as the empty file — yields a
non-error boolean classification; and the cached property short-circuits the
file access while an empty cache propagates the open failure. -/
theorem C10_io_propagation :
    (detect_encryption none = Except.error "IOError") ∧
    (∀ content, detect_encryption (some content) = Except.ok (detectBytes content)) ∧
    (detect_encryption (some []) = Except.ok false) ∧
    (∀ b, encrypted_access_io none (some b) = Except.ok (b, some b)) ∧
    (encrypted_access_io none none = Except.error "IOError") := by
  refine ⟨rfl, fun content => rfl, rfl, fun b => rfl, rfl⟩

/-- Claim C6 counterexample: the one-byte file `0xC1` (high bit set, new
packet format, low six bits equal to 1) is shorter than 2 bytes yet
classifies as encrypted, contradicting "a file shorter than 2 bytes
classifies as not-encrypted". -/
theorem C6_cex : ([0xC1] : List Nat).length < 2 ∧ detectBytes [0xC1] = true := by
  decide

set_option maxRecDepth 8000 in
/-- Claim C6 (amended): detection is total (never raises on readable
content): the zero-length file is not-encrypted; any file whose first byte
has the high bit clear is not-encrypted; a single-byte file is encrypted
exactly when that byte is `0xC1` (a new-format packet with tag 1) — every
other file shorter than 2 bytes is not-encrypted; and an old-format header
too short for its body offset (the source's `IndexError`) is
not-encrypted. -/
theorem C6_detect_boundary :
    detectBytes [] = false ∧
    (∀ b rest, b &&& 0x80 = 0 → detectBytes (b :: rest) = false) ∧
    (∀ b < 256, detectBytes [b] = true ↔ b = 0xC1) ∧
    (∀ b rest, b &&& 0x40 = 0 → (b :: rest).length ≤ bodyOffset b →
      detectBytes (b :: rest) = false) := by
  refine ⟨rfl, ?_, ?_, ?_⟩
  · intro b rest h
    have hb : (b &&& 0x80 == 0) = true := by simp [h]
    simp [detectBytes, List.take_succ_cons, hb]
  · decide
  · intro b rest h4 hlen
    by_cases h8 : b &&& 0x80 == 0
    · simp [detectBytes, List.take_succ_cons, h8]
    · have hb4 : (b &&& 0x40 == 0) = true := by simp [h4]
      by_cases htag : ((b &&& 0x3C) >>> 2 != 1) = true
      · simp [detectBytes, List.take_succ_cons, h8, hb4, htag]
      · have hnone : ((b :: rest).take 32)[bodyOffset b]? = none := by
          apply List.getElem?_eq_none
          calc ((b :: rest).take 32).length ≤ (b :: rest).length :=
                by rw [List.length_take]; omega
            _ ≤ bodyOffset b := hlen
        simp only [detectBytes, List.getElem?_cons_zero, List.take_succ_cons,
          Bool.not_eq_true] at hnone ⊢
        rw [if_neg (by simpa using h8), if_pos hb4, if_neg (by simpa using htag), hnone]

/-- Folding union from an initial set equals union with the right fold from
the empty set. -/
theorem foldl_union_eq (v : Finset String) (l : List (Finset String)) :
    l.foldl (· ∪ ·) v = v ∪ l.foldr (· ∪ ·) ∅ := by
  induction l generalizing v with
  | nil => simp
  | cons a l ih => simp [ih (v ∪ a), Finset.union_assoc]

/-- `dictInsert` never produces the empty dict. -/
theorem dictInsert_ne_nil (d : List (String × Finset String)) (k : String)
    (v : Finset String) : dictInsert d k v ≠ [] := by
  cases d with
  | nil => simp [dictInsert]
  | cons c cs =>
    by_cases hc : (c.1 == k) = true <;> simp [dictInsert, hc]

/-- Unfolding lookup at a matching head binding. -/
theorem dictLookup_cons_pos (c : String × Finset String) (cs : List (String × Finset String))
    (k : String) (h : (c.1 == k) = true) : dictLookup (c :: cs) k = some c.2 := by
  simp [dictLookup, List.find?_cons, h]

/-- Unfolding lookup past a non-matching head binding. -/
theorem dictLookup_cons_neg (c : String × Finset String) (cs : List (String × Finset String))
    (k : String) (h : (c.1 == k) = false) : dictLookup (c :: cs) k = dictLookup cs k := by
  simp [dictLookup, List.find?_cons, h]

/-- Looking up the just-assigned key returns the assigned value. -/
theorem dictLookup_dictInsert_self (d : List (String × Finset String)) (k : String)
    (v : Finset String) : dictLookup (dictInsert d k v) k = some v := by
  induction d with
  | nil => simp [dictInsert, dictLookup]
  | cons c cs ih =>
    simp only [dictInsert]
    by_cases hc : (c.1 == k) = true
    · rw [if_pos hc, dictLookup_cons_pos _ _ _ (by simp)]
    · rw [if_neg hc, dictLookup_cons_neg _ _ _ (by simpa using hc)]
      exact ih

/-- Assigning key `k` does not change the binding of any other key. -/
theorem dictLookup_dictInsert_ne (d : List (String × Finset String)) (k a : String)
    (v : Finset String) (h : a ≠ k) :
    dictLookup (dictInsert d k v) a = dictLookup d a := by
  have hka : ((k : String) == a) = false := beq_eq_false_iff_ne.mpr (Ne.symm h)
  induction d with
  | nil =>
    simp only [dictInsert]
    rw [dictLookup_cons_neg _ _ _ hka]
  | cons c cs ih =>
    simp only [dictInsert]
    by_cases hc : (c.1 == k) = true
    · have hce : c.1 = k := by simpa using hc
      rw [if_pos hc, dictLookup_cons_neg _ _ _ hka,
        dictLookup_cons_neg _ _ _ (by rw [hce]; exact hka)]
    · rw [if_neg hc]
      by_cases hca : (c.1 == a) = true
      · rw [dictLookup_cons_pos _ _ _ hca, dictLookup_cons_pos _ _ _ hca]
      · rw [dictLookup_cons_neg _ _ _ (by simpa using hca),
          dictLookup_cons_neg _ _ _ (by simpa using hca), ih]

/-- When the key is absent, `dictInsert` appends the binding. -/
theorem dictInsert_of_not_mem (d : List (String × Finset String)) (k : String)
    (v : Finset String) (h : ∀ p ∈ d, p.1 ≠ k) :
    dictInsert d k v = d ++ [(k, v)] := by
  induction d with
  | nil => rfl
  | cons c cs ih =>
    have hc : (c.1 == k) = false := beq_eq_false_iff_ne.mpr (h c (List.mem_cons_self c cs))
    simp [dictInsert, hc, ih fun p hp => h p (List.mem_cons_of_mem c hp)]

/-- Looking up a key appended behind bindings that all use other keys. -/
theorem dictLookup_append_key (d : List (String × Finset String)) (k : String)
    (v : Finset String) (h : ∀ p ∈ d, p.1 ≠ k) :
    dictLookup (d ++ [(k, v)]) k = some v := by
  unfold dictLookup
  rw [List.find?_append]
  have hnone : d.find? (fun p => p.1 == k) = none :=
    List.find?_eq_none.mpr fun x hx => by simpa using h x hx
  rw [hnone]
  simp

/-- Appending the `all` binding behind non-`all` bindings: the union of the
non-`all` entries is the fold over the original bindings. -/
theorem unionOthers_append_all (d : List (String × Finset String)) (v : Finset String)
    (h : ∀ p ∈ d, p.1 ≠ "all") :
    unionOthers (d ++ [("all", v)]) = (d.map Prod.snd).foldr (· ∪ ·) ∅ := by
  unfold unionOthers
  rw [List.filter_append]
  have h1 : d.filter (fun p => p.1 != "all") = d :=
    List.filter_eq_self.mpr fun a ha => by simpa [bne_iff_ne] using h a ha
  have h2 : ([(("all", v) : String × Finset String)]).filter (fun p => p.1 != "all") = [] := by
    simp
  rw [h1, h2, List.append_nil]

/-- Lookup in the alias dict built by mapping a value transformation over a
configuration with pairwise distinct keys. -/
theorem dictLookup_map_config (config : List (String × StrOrList))
    (g : StrOrList → Finset String) (a : String) (v : StrOrList)
    (hnd : (config.map Prod.fst).Nodup) (hmem : (a, v) ∈ config) :
    dictLookup (config.map (fun p => (p.1, g p.2))) a = some (g v) := by
  induction config with
  | nil => cases hmem
  | cons c cs ih =>
    rw [List.map_cons] at hnd
    rcases List.mem_cons.mp hmem with h | h
    · rw [← h, List.map_cons]
      exact dictLookup_cons_pos _ _ _ (by simp)
    · have hkey : (c.1 == a) = false := by
        apply beq_eq_false_iff_ne.mpr
        intro he
        exact (List.nodup_cons.mp hnd).1 (he ▸ List.mem_map.mpr ⟨(a, v), h, rfl⟩)
      rw [List.map_cons, dictLookup_cons_neg _ _ _ hkey]
      exact ih (List.nodup_cons.mp hnd).2 h

/-- Claim C1 counterexample: a configuration that itself declares an alias
named `all` (here `all = {K2}`, besides `a = {K1}`).  The constructed table
binds `all` to `{K1, K2}` — the union of the configured values *including*
the configured `all` — while the union of every other entry is `{K1}`, so
the invariant the claim states fails. -/
theorem C1_cex :
    ∃ t, KeyManager.make [("a", StrOrList.str "K1"), ("all", StrOrList.str "K2")] = some t ∧
      dictLookup t "all" ≠ some (unionOthers t) := by
  refine ⟨[("a", {"K1"}), ("all", {"K1", "K2"})], by decide, by decide⟩

/-- Claim C1 (amended): when the source configuration is nonempty and declares
no alias named `all`, the constructed table's `all` entry equals the union of
every other entry. -/
theorem C1_all_union (config : List (String × StrOrList)) (hne : config ≠ [])
    (hall : ∀ p ∈ config, p.1 ≠ "all") :
    ∃ t, KeyManager.make config = some t ∧
      dictLookup t "all" = some (unionOthers t) := by
  obtain ⟨c, cs, rfl⟩ := List.exists_cons_of_ne_nil hne
  have hkeys : ∀ q ∈ (c :: cs).map (fun p => (p.1, (wrap_string_list p.2).toFinset)),
      q.1 ≠ "all" := by
    intro q hq
    obtain ⟨p, hp, rfl⟩ := List.mem_map.mp hq
    exact hall p hp
  simp only [KeyManager.make, List.map_cons, setUnionStar]
  refine ⟨_, rfl, ?_⟩
  rw [dictInsert_of_not_mem _ _ _ (by simpa using hkeys)]
  rw [dictLookup_append_key _ _ _ (by simpa using hkeys)]
  rw [unionOthers_append_all _ _ (by simpa using hkeys)]
  rw [foldl_union_eq]
  simp

/-- Claim C1 witness: the amended invariant evaluated on the concrete
configuration `{a: K1, b: [K1, K2]}`. -/
theorem C1_w :
    ∃ t, KeyManager.make [("a", StrOrList.str "K1"),
        ("b", StrOrList.list ["K1", "K2"])] = some t ∧
      dictLookup t "all" = some (unionOthers t) :=
  C1_all_union [("a", StrOrList.str "K1"), ("b", StrOrList.list ["K1", "K2"])]
    (by decide) (by decide)

/-- Claim C9 counterexample: a `keys` configuration whose only alias is itself
named `all` constructs successfully and produces a table whose only entry is
`all` — contradicting "an Alias Table containing only the synthetic `all`
entry ... is never produced". -/
theorem C9_cex :
    KeyManager.make [("all", StrOrList.str "K")] = some [("all", {"K"})] ∧
    ∀ p ∈ [(("all", ({"K"} : Finset String)))], p.1 = "all" := by
  exact ⟨by decide, by decide⟩

/-- Claim C9 (amended): constructing the Alias Table fails (the `TypeError`
from forming the union of zero sets) exactly when the `keys` configuration
declares no aliases at all; every successfully constructed table is nonempty
and binds `all`.  A table whose only entry is `all` can still be produced,
namely from a configuration whose only aliases are themselves named `all`. -/
theorem C9_empty_config (config : List (String × StrOrList)) :
    (KeyManager.make config = none ↔ config = []) ∧
    (∀ t, KeyManager.make config = some t →
      t ≠ [] ∧ ∃ v, dictLookup t "all" = some v) := by
  cases config with
  | nil =>
    refine ⟨by simp [KeyManager.make, setUnionStar], ?_⟩
    intro t h
    simp [KeyManager.make, setUnionStar] at h
  | cons c cs =>
    constructor
    · simp [KeyManager.make, setUnionStar]
    · intro t h
      simp only [KeyManager.make, List.map_cons, setUnionStar, Option.some.injEq] at h
      rw [← h]
      exact ⟨dictInsert_ne_nil _ _ _, _, dictLookup_dictInsert_self _ _ _⟩

/-- Claim C9 witness: the amended statement evaluated on the one-alias
configuration `{a: K}`. -/
theorem C9_w :
    ([(("a", ({"K"} : Finset String))), ("all", {"K"})] : List (String × Finset String)) ≠ [] ∧
    ∃ v, dictLookup [(("a", ({"K"} : Finset String))), ("all", {"K"})] "all" = some v :=
  (C9_empty_config [("a", StrOrList.str "K")]).2
    [("a", {"K"}), ("all", {"K"})] (by decide)

/-- Claim C4 counterexample: with keyring `{K1 ↦ master fingerprint FP1}` and
configuration `{a: K1}`, the source construction stores the raw identifier
`K1` — which is not the fingerprint of any keyring key — while the
construction the spec describes (normalizing through the Key Directory) would
store `FP1`: the two constructions differ. -/
theorem C4_cex :
    ∃ t, KeyManager.make [("a", StrOrList.str "K1")] = some t ∧
      dictLookup t "a" = some {"K1"} ∧
      "K1" ∉ ([⟨["K1"], "FP1"⟩] : List PgpKey).map PgpKey.fingerprint ∧
      KeyManager.makeSpec [⟨["K1"], "FP1"⟩] [("a", StrOrList.str "K1")] ≠
        KeyManager.make [("a", StrOrList.str "K1")] := by
  refine ⟨[("a", {"K1"}), ("all", {"K1"})], by decide, by decide, by decide, by decide⟩

/-- Claim C4 (amended): the Alias Table construction never consults the Key
Directory; each configured alias is bound to the set of its raw configured
identifier strings, exactly as written (for a configuration with distinct
alias names, looking up any configured alias other than `all` in the
constructed table returns the wrapped raw value). -/
theorem C4_raw_ids (config : List (String × StrOrList))
    (hnd : (config.map Prod.fst).Nodup) (a : String) (v : StrOrList)
    (hmem : (a, v) ∈ config) (hna : a ≠ "all") :
    ∃ t, KeyManager.make config = some t ∧
      dictLookup t a = some (wrap_string_list v).toFinset := by
  cases config with
  | nil => cases hmem
  | cons c cs =>
    simp only [KeyManager.make, List.map_cons, setUnionStar]
    refine ⟨_, rfl, ?_⟩
    rw [show ((c.1, (wrap_string_list c.2).toFinset) ::
        cs.map (fun p => (p.1, (wrap_string_list p.2).toFinset))) =
        (c :: cs).map (fun p => (p.1, (wrap_string_list p.2).toFinset)) from rfl]
    rw [dictLookup_dictInsert_ne _ _ _ _ hna]
    exact dictLookup_map_config _ (fun x => (wrap_string_list x).toFinset) a v hnd hmem

/-- Claim C4 witness: the amended statement evaluated on the concrete
configuration `{a: K1}`. -/
theorem C4_w :
    ∃ t, KeyManager.make [("a", StrOrList.str "K1")] = some t ∧
      dictLookup t "a" = some (wrap_string_list (StrOrList.str "K1")).toFinset :=
  C4_raw_ids [("a", StrOrList.str "K1")] (by decide) "a" (StrOrList.str "K1")
    (by decide) (by decide)

/-- A populated cache is returned as is, without touching the file. -/
theorem encrypted_access_cache_some (s : SecretState) (b : Bool) (h : s.cache = some b) :
    Secret.encrypted_access s = (b, s) := by
  simp [Secret.encrypted_access, h]

/-- The `encrypted` property only populates the cache; every other component
of the state is untouched, and the cache afterwards holds the returned
value. -/
theorem encrypted_access_fields (s : SecretState) :
    (Secret.encrypted_access s).2.path = s.path ∧
    (Secret.encrypted_access s).2.keys = s.keys ∧
    (Secret.encrypted_access s).2.fileContent = s.fileContent ∧
    (Secret.encrypted_access s).2.tempExists = s.tempExists ∧
    (Secret.encrypted_access s).2.encCount = s.encCount ∧
    (Secret.encrypted_access s).2.cache = some (Secret.encrypted_access s).1 := by
  cases h : s.cache <;> simp [Secret.encrypted_access, h]

/-- `decrypt` on an engine success: atomic replace, cache set to plaintext. -/
theorem decrypt_spec_ok (E : Engine) (s : SecretState) (plain : List Nat)
    (h : E.decryptFile s.fileContent = Except.ok plain) :
    Secret.decrypt E s =
      ({ s with fileContent := plain, tempExists := false, cache := some false }, none) := by
  simp [Secret.decrypt, h]

/-- `decrypt` on an engine failure: temp removed, target untouched, error
carrying the status text. -/
theorem decrypt_spec_err (E : Engine) (s : SecretState) (status : String)
    (h : E.decryptFile s.fileContent = Except.error status) :
    Secret.decrypt E s =
      ({ s with tempExists := false }, some (mkSecretError s.path status)) := by
  simp [Secret.decrypt, h]

/-- `encrypt` on an already-encrypted secret: warn-and-return no-op. -/
theorem encrypt_spec_already (E : Engine) (s : SecretState)
    (h : (Secret.encrypted_access s).1 = true) :
    Secret.encrypt E s = ((Secret.encrypted_access s).2, none) := by
  simp [Secret.encrypt, h]

/-- `encrypt` from plaintext on an engine success. -/
theorem encrypt_spec_ok (E : Engine) (s : SecretState) (cipher : List Nat)
    (h : (Secret.encrypted_access s).1 = false)
    (hE : E.encryptFile (Secret.encrypted_access s).2.fileContent
      (Secret.encrypted_access s).2.keys = Except.ok cipher) :
    Secret.encrypt E s =
      ({ (Secret.encrypted_access s).2 with
          fileContent := cipher
          tempExists := false
          cache := some true
          encCount := (Secret.encrypted_access s).2.encCount + 1 }, none) := by
  simp [Secret.encrypt, h, hE]

/-- `encrypt` from plaintext on an engine failure. -/
theorem encrypt_spec_err (E : Engine) (s : SecretState) (status : String)
    (h : (Secret.encrypted_access s).1 = false)
    (hE : E.encryptFile (Secret.encrypted_access s).2.fileContent
      (Secret.encrypted_access s).2.keys = Except.error status) :
    Secret.encrypt E s =
      ({ (Secret.encrypted_access s).2 with tempExists := false },
       some (mkSecretError (Secret.encrypted_access s).2.path status)) := by
  simp [Secret.encrypt, h, hE]

/-- Claim C3: when the engine reports failure, `encrypt` (reached with the
file in plaintext state) and `decrypt` both leave the target file
byte-identical to its pre-operation state, leave no temporary file behind,
and raise a `SecretError` whose text carries the engine's status text. -/
theorem C3_failure_atomic (E : Engine) (s : SecretState) (status : String) :
    ((Secret.encrypted_access s).1 = false →
      E.encryptFile s.fileContent s.keys = Except.error status →
      (Secret.encrypt E s).1.fileContent = s.fileContent ∧
      (Secret.encrypt E s).1.tempExists = false ∧
      (Secret.encrypt E s).2 = some (mkSecretError s.path status)) ∧
    (E.decryptFile s.fileContent = Except.error status →
      (Secret.decrypt E s).1.fileContent = s.fileContent ∧
      (Secret.decrypt E s).1.tempExists = false ∧
      (Secret.decrypt E s).2 = some (mkSecretError s.path status)) := by
  obtain ⟨hpath, hkeys, hfile, htemp, hcnt, hcache⟩ := encrypted_access_fields s
  constructor
  · intro h hE
    rw [encrypt_spec_err E s status h (by rw [hfile, hkeys]; exact hE)]
    refine ⟨hfile, rfl, ?_⟩
    rw [hpath]
  · intro hE
    rw [decrypt_spec_err E s status hE]
    exact ⟨rfl, rfl, rfl⟩

/-- Claim C3 witness: the failure contract evaluated on a concrete plaintext
secret and an engine that always fails with status `engine says no`. -/
theorem C3_w :
    ((Secret.encrypt errEngine sampleSecret).1.fileContent = sampleSecret.fileContent ∧
      (Secret.encrypt errEngine sampleSecret).1.tempExists = false ∧
      (Secret.encrypt errEngine sampleSecret).2 =
        some (mkSecretError sampleSecret.path "engine says no")) ∧
    ((Secret.decrypt errEngine sampleSecret).1.fileContent = sampleSecret.fileContent ∧
      (Secret.decrypt errEngine sampleSecret).1.tempExists = false ∧
      (Secret.decrypt errEngine sampleSecret).2 =
        some (mkSecretError sampleSecret.path "engine says no")) :=
  ⟨(C3_failure_atomic errEngine sampleSecret "engine says no").1 (by decide) rfl,
   (C3_failure_atomic errEngine sampleSecret "engine says no").2 rfl⟩

/-- Claim C7 counterexample: a successful `encrypt` on a plaintext secret
leaves the cached flag at "encrypted" (`some true`), not at the unknown
state (`none`) the claim requires after any encrypt call. -/
theorem C7_cex :
    (Secret.encrypt okEngine sampleSecret).1.cache = some true ∧
    (Secret.encrypt okEngine sampleSecret).1.cache ≠ none := by
  exact ⟨by decide, by decide⟩

/-- Claim C7 (amended): the cached flag is tri-state and populated on first
access of `encrypted`; but after encrypt/decrypt it is set to the resulting
definite state rather than invalidated: any `encrypt` that returns without
error leaves it at `some true` and a failing `encrypt` at `some false`
(populated by the property access that guards the operation); a successful
`decrypt` sets it to `some false` while a failing `decrypt` leaves it
unchanged.  It is never returned to the unknown state. -/
theorem C7_cache_tracking (E : Engine) (s : SecretState) :
    ((Secret.encrypted_access s).2.cache = some (Secret.encrypted_access s).1) ∧
    ((Secret.encrypt E s).2 = none → (Secret.encrypt E s).1.cache = some true) ∧
    (∀ e, (Secret.encrypt E s).2 = some e → (Secret.encrypt E s).1.cache = some false) ∧
    ((Secret.decrypt E s).2 = none → (Secret.decrypt E s).1.cache = some false) ∧
    (∀ e, (Secret.decrypt E s).2 = some e → (Secret.decrypt E s).1.cache = s.cache) := by
  obtain ⟨hpath, hkeys, hfile, htemp, hcnt, hcache⟩ := encrypted_access_fields s
  refine ⟨hcache, ?_, ?_, ?_, ?_⟩
  · intro hok
    by_cases hb : (Secret.encrypted_access s).1 = true
    · rw [encrypt_spec_already E s hb, hcache, hb]
    · rw [Bool.not_eq_true] at hb
      cases hE : E.encryptFile (Secret.encrypted_access s).2.fileContent
          (Secret.encrypted_access s).2.keys with
      | ok cipher => rw [encrypt_spec_ok E s cipher hb hE]
      | error st => rw [encrypt_spec_err E s st hb hE] at hok; cases hok
  · intro e he
    by_cases hb : (Secret.encrypted_access s).1 = true
    · rw [encrypt_spec_already E s hb] at he; cases he
    · rw [Bool.not_eq_true] at hb
      cases hE : E.encryptFile (Secret.encrypted_access s).2.fileContent
          (Secret.encrypted_access s).2.keys with
      | ok cipher => rw [encrypt_spec_ok E s cipher hb hE] at he; cases he
      | error st =>
        rw [encrypt_spec_err E s st hb hE]
        rw [hcache, hb]
  · intro hok
    cases hE : E.decryptFile s.fileContent with
    | ok plain => rw [decrypt_spec_ok E s plain hE]
    | error st => rw [decrypt_spec_err E s st hE] at hok; cases hok
  · intro e he
    cases hE : E.decryptFile s.fileContent with
    | ok plain => rw [decrypt_spec_ok E s plain hE] at he; cases he
    | error st => rw [decrypt_spec_err E s st hE]

/-- Claim C7 witness: the amended cache behaviour evaluated concretely — a
failing decrypt on a fresh secret leaves the cache unknown (unchanged). -/
theorem C7_w :
    (Secret.decrypt errEngine sampleSecret).1.cache = sampleSecret.cache :=
  ((C7_cache_tracking errEngine sampleSecret).2.2.2.2)
    (mkSecretError sampleSecret.path "engine says no") (by decide)

/-- Claim C6 witness: the amended boundary behaviour evaluated on the
two-byte file `00 09`, whose first byte has the high bit clear. -/
theorem C6_w : detectBytes [0, 9] = false :=
  C6_detect_boundary.2.1 0 [9] (by decide)

/-- `currentKeysOf` on a state whose cache says encrypted. -/
theorem currentKeysOf_cache_true (E : Engine) (t : SecretState)
    (h : t.cache = some true) :
    currentKeysOf E t = get_master_keys E.keyring (E.listPackets t.fileContent) := by
  unfold currentKeysOf
  rw [encrypted_access_cache_some t true h]
  simp

/-- `currentKeysOf` on a state whose cache says plaintext. -/
theorem currentKeysOf_cache_false (E : Engine) (t : SecretState)
    (h : t.cache = some false) :
    currentKeysOf E t = ∅ := by
  unfold currentKeysOf
  rw [encrypted_access_cache_some t false h]
  simp

/-- `update_keys` when the detected recipient set already equals `_keys`:
the "Keys are up to date" branch only populates the cache. -/
theorem update_keys_noop (E : Engine) (s : SecretState)
    (h : currentKeysOf E s = s.keys) :
    Secret.update_keys E s = ((Secret.encrypted_access s).2, none) := by
  have hk : (Secret.encrypted_access s).2.keys = s.keys := (encrypted_access_fields s).2.1
  simp [Secret.update_keys, h, hk]

/-- `update_keys` on a state with populated cache and matching recipient set
is the identity. -/
theorem update_keys_stable (E : Engine) (s : SecretState) (b : Bool)
    (hc : s.cache = some b) (h : currentKeysOf E s = s.keys) :
    Secret.update_keys E s = (s, none) := by
  rw [update_keys_noop E s h, encrypted_access_cache_some s b hc]

/-- A successful `encrypt` from a state whose cache says plaintext: the
engine must have succeeded, and the whole transition is characterized. -/
theorem encrypt_post (E : Engine) (t : SecretState)
    (hcache : t.cache = some false)
    (hok : (Secret.encrypt E t).2 = none) :
    ∃ cipher, E.encryptFile t.fileContent t.keys = Except.ok cipher ∧
      Secret.encrypt E t =
        ({ t with
            fileContent := cipher
            tempExists := false
            cache := some true
            encCount := t.encCount + 1 }, none) := by
  have ha := encrypted_access_cache_some t false hcache
  have hb : (Secret.encrypted_access t).1 = false := by rw [ha]
  cases hE : E.encryptFile t.fileContent t.keys with
  | error st =>
    rw [encrypt_spec_err E t st hb (by rw [ha]; exact hE)] at hok
    cases hok
  | ok cipher =>
    refine ⟨cipher, rfl, ?_⟩
    have hc := encrypt_spec_ok E t cipher hb (by rw [ha]; exact hE)
    rw [ha] at hc
    exact hc

/-- After an error-free `update_keys` the state is "stable": the cache is
populated, the detected recipient set equals `_keys`, `_keys` is unchanged,
and at most one encryption transition happened. -/
theorem update_keys_post (E : Engine) (s : SecretState)
    (hfresh : ∀ c cipher, E.encryptFile c s.keys = Except.ok cipher →
      get_master_keys E.keyring (E.listPackets cipher) = s.keys)
    (hok : (Secret.update_keys E s).2 = none) :
    ∃ b, (Secret.update_keys E s).1.cache = some b ∧
      currentKeysOf E (Secret.update_keys E s).1 = (Secret.update_keys E s).1.keys ∧
      (Secret.update_keys E s).1.keys = s.keys ∧
      (Secret.update_keys E s).1.encCount ≤ s.encCount + 1 := by
  obtain ⟨hpath, hkeys, hfile, htemp, hcnt, hcache⟩ := encrypted_access_fields s
  by_cases hcur : currentKeysOf E s = s.keys
  · rw [update_keys_noop E s hcur]
    refine ⟨(Secret.encrypted_access s).1, hcache, ?_, hkeys, ?_⟩
    · have heq : currentKeysOf E (Secret.encrypted_access s).2 = currentKeysOf E s := by
        unfold currentKeysOf
        rw [encrypted_access_cache_some ((Secret.encrypted_access s).2) _ hcache]
      rw [heq, hcur, hkeys]
    · show (Secret.encrypted_access s).2.encCount ≤ s.encCount + 1
      rw [hcnt]
      omega
  · have hne : currentKeysOf E s ≠ (Secret.encrypted_access s).2.keys := by
      rw [hkeys]; exact hcur
    by_cases hb : (Secret.encrypted_access s).1 = true
    · have hunf : Secret.update_keys E s =
          andThen (Secret.decrypt E (Secret.encrypted_access s).2) (Secret.encrypt E) := by
        simp [Secret.update_keys, hne, hb]
      cases hdec : E.decryptFile (Secret.encrypted_access s).2.fileContent with
      | error st =>
        rw [hunf, decrypt_spec_err _ _ _ hdec] at hok
        cases hok
      | ok plain =>
        rw [hunf, decrypt_spec_ok _ _ _ hdec] at hok ⊢
        rw [show andThen
            ({ (Secret.encrypted_access s).2 with
                fileContent := plain
                tempExists := false
                cache := some false }, none) (Secret.encrypt E) =
            Secret.encrypt E
              { (Secret.encrypted_access s).2 with
                  fileContent := plain
                  tempExists := false
                  cache := some false } from rfl] at hok ⊢
        obtain ⟨cipher, hE, henc⟩ := encrypt_post E _ rfl hok
        rw [henc]
        refine ⟨true, rfl, ?_, hkeys, ?_⟩
        · rw [currentKeysOf_cache_true E _ rfl]
          exact (hfresh _ _ (by rw [hkeys] at hE; exact hE)).trans hkeys.symm
        · simp [hcnt]
    · rw [Bool.not_eq_true] at hb
      have hunf : Secret.update_keys E s = Secret.encrypt E (Secret.encrypted_access s).2 := by
        simp [Secret.update_keys, hne, hb]
      rw [hunf] at hok ⊢
      obtain ⟨cipher, hE, henc⟩ := encrypt_post E _ (by rw [hcache, hb]) hok
      rw [henc]
      refine ⟨true, rfl, ?_, hkeys, ?_⟩
      · rw [currentKeysOf_cache_true E _ rfl]
        exact (hfresh _ _ (by rw [hkeys] at hE; exact hE)).trans hkeys.symm
      · simp [hcnt]

/-- Claim C2: for a secret whose required set `_keys` is unchanged, under the
engine-coherence assumption that a file freshly encrypted to `_keys` lists
recipients that canonicalize back to `_keys` (true when `_keys` consists of
canonical master fingerprints, as the spec's data model prescribes), an
error-free `update_keys` performs at most one encryption transition, leaves
the detected recipient set equal to `_keys`, and a second `update_keys` is a
complete no-op: it returns the very same state (file, cache and all) with no
error. -/
theorem C2_reconcile_idem (E : Engine) (s : SecretState)
    (hfresh : ∀ c cipher, E.encryptFile c s.keys = Except.ok cipher →
      get_master_keys E.keyring (E.listPackets cipher) = s.keys)
    (hok : (Secret.update_keys E s).2 = none) :
    (Secret.update_keys E s).1.encCount ≤ s.encCount + 1 ∧
    currentKeysOf E (Secret.update_keys E s).1 = s.keys ∧
    Secret.update_keys E (Secret.update_keys E s).1 =
      ((Secret.update_keys E s).1, none) := by
  obtain ⟨b, hb, hcur, hkeys, hcnt⟩ := update_keys_post E s hfresh hok
  exact ⟨hcnt, hcur.trans hkeys,
    update_keys_stable E _ b hb (hcur.trans (hkeys.trans hkeys.symm))⟩

/-- Claim C2 witness: the idempotence contract evaluated on a concrete
plaintext secret and a coherent concrete engine. -/
theorem C2_w :
    (Secret.update_keys okEngine sampleSecret).1.encCount ≤ sampleSecret.encCount + 1 ∧
    currentKeysOf okEngine (Secret.update_keys okEngine sampleSecret).1 = sampleSecret.keys ∧
    Secret.update_keys okEngine (Secret.update_keys okEngine sampleSecret).1 =
      ((Secret.update_keys okEngine sampleSecret).1, none) :=
  C2_reconcile_idem okEngine sampleSecret
    (by
      intro c cipher h
      cases h
      decide)
    (by decide)

/-- Claim C8 counterexample: configured domain `example.com` and name `Alice`
produce the request email `alice@example.com`, not `Alice@example.com`: the
name is lowercased before the `@`, so the synthesized email is not exactly
`name@domain` for every name. -/
theorem C8_cex :
    (KeyGenerator.buildRequest ⟨"RSA", 4096, "example.com"⟩ "Alice").nameEmail =
      "alice@example.com" ∧
    "alice@example.com" ≠ "Alice" ++ "@" ++ "example.com" := by
  exact ⟨by decide, by decide⟩

/-- Claim C8 (amended): for every name, `generate` builds a key-generation
request with the `%no-protection` directive and an empty passphrase, and a
synthesized email of exactly `lowercase(name)@domain`; and when the engine
reports no key, it fails with the key-generation error. -/
theorem C8_request_fields (cfg : KeyGenConfig) (name : String)
    (gen : KeyGenRequest → Option String) :
    (KeyGenerator.buildRequest cfg name).passphrase = "" ∧
    (KeyGenerator.buildRequest cfg name).noProtection = true ∧
    (KeyGenerator.buildRequest cfg name).nameEmail = pyLower name ++ "@" ++ cfg.domain ∧
    (gen (KeyGenerator.buildRequest cfg name) = none →
      KeyGenerator.generate gen cfg name = Except.error "Failed to generate key") := by
  refine ⟨rfl, rfl, rfl, ?_⟩
  intro h
  simp [KeyGenerator.generate, h]

/-- Claim C8 witness: the amended request contract evaluated on the name
`root`, the domain `example.com` and an engine that reports no key. -/
theorem C8_w :
    (KeyGenerator.buildRequest ⟨"RSA", 4096, "example.com"⟩ "root").passphrase = "" ∧
    (KeyGenerator.buildRequest ⟨"RSA", 4096, "example.com"⟩ "root").noProtection = true ∧
    (KeyGenerator.buildRequest ⟨"RSA", 4096, "example.com"⟩ "root").nameEmail =
      pyLower "root" ++ "@" ++ "example.com" ∧
    ((fun _ => (none : Option String)) (KeyGenerator.buildRequest
        ⟨"RSA", 4096, "example.com"⟩ "root") = none →
      KeyGenerator.generate (fun _ => none) ⟨"RSA", 4096, "example.com"⟩ "root" =
        Except.error "Failed to generate key") :=
  C8_request_fields ⟨"RSA", 4096, "example.com"⟩ "root" (fun _ => none)
